import Mathlib

/-
  Verification development for the `@wire/logger` contextual-logger core.

  The TypeScript source is shallowly embedded: JavaScript objects are ordered
  key/value lists, object references are addresses into an explicit heap, the
  transport is modelled as a recorder of its invocations, and the
  `AsyncLocalStorage` binding is an explicit context field saved and restored
  by `cast`, mirroring how the storage propagates the bound logger across a
  logical asynchronous flow.
-/

set_option autoImplicit false

namespace Wire

/-- JavaScript runtime values as the logger manipulates them: `undef` is
`undefined`, `prim` a primitive rendered as a string, `ref` a reference to a
mutable object in the heap, `arr` an array of strings (formatted stack lines),
`obj` a plain object value, and `err` an `Error` instance carrying constructor
name, message, raw stack string, own enumerable properties and an optional
`cause`. -/
inductive JVal where
  | undef : JVal
  | prim : String → JVal
  | ref : Nat → JVal
  | arr : List String → JVal
  | obj : List (String × JVal) → JVal
  | err : String → String → Option String → List (String × JVal) → Option JVal → JVal

/-- A JavaScript object: ordered key/value pairs, keys unique. -/
abbrev Obj := List (String × JVal)

/-- Property read `o[k]`. -/
def getKey : Obj → String → Option JVal
  | [], _ => none
  | (a, b) :: tl, k => if a = k then some b else getKey tl k

/-- Property write `o[k] = v`: overwrites in place when the key exists,
otherwise appends at the end (JavaScript insertion order). -/
def setKey : Obj → String → JVal → Obj
  | [], k, v => [(k, v)]
  | (a, b) :: tl, k, v => if a = k then (k, v) :: tl else (a, b) :: setKey tl k v

/-- `Object.assign(o, m)`: copy every own property of `m` onto `o`, in order,
as `Logger.upd_meta` does. -/
def assignObj (o m : Obj) : Obj :=
  m.foldl (fun acc kv => setKey acc kv.1 kv.2) o

/-- JavaScript truthiness of a value, as tested by `if (error.cause)`. -/
def truthy : JVal → Bool
  | .undef => false
  | .prim s => s ≠ ""
  | _ => true

/-- JavaScript template-literal stringification, as used by
    backtick-interpolation in `Logger.log`. -/
def jstr : JVal → String
  | .undef => "undefined"
  | .prim s => s
  | .ref _ => "[object Object]"
  | .arr ls => String.intercalate "," ls
  | .obj _ => "[object Object]"
  | .err _ m _ _ _ => "Error: " ++ m

/-- `format_error_stack`: split the raw stack on the frame separator and drop
the first piece (the error message line). -/
def format_error_stack (stack : Option String) : Option (List String) :=
  match stack with
  | none => none
  | some s => some ((s.splitOn "\n    at ").drop 1)

/-- `format_error`: an `Error` becomes a plain object spreading its own
properties and adding `_class`, `_message`, `_stack` and (when truthy, and
recursively formatted) `_cause`; every non-`Error` value is returned
unchanged. -/
def format_error : JVal → JVal
  | .err name msg stack props cause =>
    let o1 := setKey props "_class" (.prim name)
    let o2 := setKey o1 "_message" (.prim msg)
    let o3 := setKey o2 "_stack"
      (match format_error_stack stack with
        | none => .undef
        | some lines => .arr lines)
    let o4 :=
      match cause with
      | some c => if truthy c then setKey o3 "_cause" (format_error c) else o3
      | none => o3
    .obj o4
  | .undef => .undef
  | .prim s => .prim s
  | .ref a => .ref a
  | .arr ls => .arr ls
  | .obj o => .obj o

/-- The eight severity levels, `emergency` (0, most severe) to `debug3` (7). -/
inductive LogLevel where
  | emergency | alert | error | warning | info | debug1 | debug2 | debug3
deriving DecidableEq

/-- Numeric value of a level, as in the source enum. -/
def LogLevel.toNat : LogLevel → Nat
  | .emergency => 0
  | .alert => 1
  | .error => 2
  | .warning => 3
  | .info => 4
  | .debug1 => 5
  | .debug2 => 6
  | .debug3 => 7

/-- `LogLevelNameMap`: every level paired with its canonical name, in
severity order; `create_logger` iterates it to generate the per-level
methods. -/
def LogLevelNameMap : List (LogLevel × String) :=
  [(.emergency, "emergency"), (.alert, "alert"), (.error, "error"),
   (.warning, "warning"), (.info, "info"), (.debug1, "debug1"),
   (.debug2, "debug2"), (.debug3, "debug3")]

/-- The mutable state of one `Logger` instance: its metadata object, the
optional trace accumulator (source field `_stack`), and the minimum level
captured from the `create_logger` closure. -/
structure LoggerState where
  meta : Obj
  _stack : Option String
  level : LogLevel

/-- The world a run of the program acts on: the store of logger instances
(addressed by index), the heap of shared mutable objects metadata values may
reference, the record of transport invocations `(lvl, data, meta)`, the
`AsyncLocalStorage` binding (`ctx`), and the `GlobalLogger` cell (`none`
until `init_logger` runs). -/
structure World where
  loggers : List LoggerState
  heap : List Obj
  calls : List (LogLevel × Obj × Obj)
  ctx : Option Nat
  global : Option Nat

/-- `use_logger()`: the logger bound to the current async context, else the
global logger (`asyncLocalStorage.getStore() ?? GlobalLogger`); `none` models
the `undefined` obtained when neither is set. -/
def use_logger (w : World) : Option Nat :=
  match w.ctx with
  | some i => some i
  | none => w.global

/-- Look up a logger instance by address. -/
def getLogger (w : World) (i : Nat) : Option LoggerState :=
  w.loggers[i]?

/-- Replace the logger instance stored at an address. -/
def setLogger (w : World) (i : Nat) (s : LoggerState) : World :=
  { w with loggers := w.loggers.set i s }

/-- `Logger.upd_meta(meta)`: `Object.assign(this.meta, meta)`, an in-place
shallow merge on the instance's metadata object. -/
def upd_meta (w : World) (i : Nat) (m : Obj) : World :=
  match getLogger w i with
  | some s => setLogger w i { s with meta := assignObj s.meta m }
  | none => w

/-- `Logger.stack(stack)`: first call sets the accumulator to the segment,
later calls append `"." ++ segment`. -/
def stack (w : World) (i : Nat) (seg : String) : World :=
  match getLogger w i with
  | some s =>
    setLogger w i
      { s with _stack := some (match s._stack with
          | none => seg
          | some t => t ++ "." ++ seg) }
  | none => w

/-- The `data.code` injection performed at the top of `Logger.log`: with no
trace the data passes through; otherwise the trace becomes `data.code`, or is
prepended dot-separated to an existing `data.code`. -/
def composeData (tr : Option String) (d : Obj) : Obj :=
  match tr with
  | none => d
  | some t =>
    match getKey d "code" with
    | none => setKey d "code" (JVal.prim t)
    | some c => setKey d "code" (JVal.prim (t ++ "." ++ jstr c))

/-- `Logger.log(lvl, data)`: inject the trace into `data.code`, then invoke
the transport exactly once with `(lvl, data, this.meta)`; the transport is
modelled as the `calls` recorder. No level filtering happens here. -/
def log (w : World) (i : Nat) (lvl : LogLevel) (d : Obj) : World :=
  match getLogger w i with
  | some s => { w with calls := w.calls ++ [(lvl, composeData s._stack d, s.meta)] }
  | none => w

/-- `Logger.clone()`: a new instance with the same transport, a shallow copy
`\x7b...this.meta\x7d` of the metadata (fresh top-level object, identical
values, references included), the current trace and the same minimum level;
the new instance is appended to the store. -/
def clone (w : World) (i : Nat) : World :=
  match getLogger w i with
  | some s => { w with loggers := w.loggers ++ [⟨s.meta, s._stack, s.level⟩] }
  | none => w

/-- The per-level convenience method `create_logger` attaches for a level:
`lvl <= level` binds it to `this.log(lvl, data)`, otherwise to a no-op. -/
def levelMethod (w : World) (i : Nat) (lvl : LogLevel) (d : Obj) : World :=
  match getLogger w i with
  | some s => if lvl.toNat ≤ s.level.toNat then log w i lvl d else w
  | none => w

/-- The eventual outcome of the promise an `Action` returns. -/
inductive POutcome where
  | fulfilled
  | rejected (e : JVal)

/-- `Logger.dispatch(lvl, action)`: fire the action; a rejection is caught by
`.catch` and logged at the given level as
`\x7b code: 'dispatch_failed', error: format_error(e) \x7d`; fulfilment logs
nothing. Nothing propagates to the caller. -/
def dispatch (w : World) (i : Nat) (lvl : LogLevel) (outcome : POutcome) : World :=
  match outcome with
  | .fulfilled => w
  | .rejected e =>
    log w i lvl [("code", .prim "dispatch_failed"), ("error", format_error e)]

/-- `Logger.timeout(lvl, ms, action)`: register the deferred dispatch with
`setTimeout`; when registration itself throws synchronously, the exception is
caught and logged as `\x7b code: 'timeout_failed', error \x7d` (the raw
caught value). `sched` is the registration outcome the platform produces:
`none` for success, `some e` for a synchronous throw. -/
def timeout (w : World) (i : Nat) (lvl : LogLevel) (_ms : Int)
    (sched : Option JVal) : World :=
  match sched with
  | none => w
  | some e => log w i lvl [("code", .prim "timeout_failed"), ("error", e)]

/-- `create_logger(\x7b transport, format_error, level \x7d)`: a fresh
instance with empty metadata, no trace and the given minimum level, appended
to the store; its address is returned alongside. -/
def create_logger (w : World) (level : LogLevel) : World × Nat :=
  ({ w with loggers := w.loggers ++ [⟨[], none, level⟩] }, w.loggers.length)

/-- `init_logger(opts)`: create a logger and store it in the `GlobalLogger`
cell. -/
def init_logger (w : World) (level : LogLevel) : World :=
  let p := create_logger w level
  { p.1 with global := some p.2 }

/-- Mutation of a heap object's property, `target[k] = v` performed by
arbitrary client code holding a reference to the object. -/
def setHeapKey (w : World) (a : Nat) (k : String) (v : JVal) : World :=
  match w.heap[a]? with
  | some o => { w with heap := w.heap.set a (setKey o k v) }
  | none => w

/-- Reading the nested path `meta[k][k2]` of a logger's metadata through the
heap: what the transport (or any observer) sees for a reference-valued
metadata entry. -/
def observe (w : World) (i : Nat) (k k2 : String) : Option JVal :=
  match getLogger w i with
  | some s =>
    match getKey s.meta k with
    | some (.ref a) => w.heap[a]?.bind (fun o => getKey o k2)
    | _ => none
  | none => none

/-- Outcome of calling a logger method through `use_logger()`: when neither a
scope nor the global logger is set, `use_logger()` yields `undefined` and the
method access crashes with a `TypeError` (reading a property of
`undefined`). -/
inductive UseOutcome where
  | crashUndefinedAccess
  | value (w : World)

/-- Invoking the `info` convenience method on `use_logger()`'s result. -/
def info_via_use (w : World) (d : Obj) : UseOutcome :=
  match use_logger w with
  | none => .crashUndefinedAccess
  | some i => .value (levelMethod w i .info d)

/-- A client program running against the logger through `use_logger()`:
metadata updates, trace pushes, raw and level-filtered log calls, sequencing,
and `cast` with a body — enough to state the scope-isolation guarantees of
`Logger.cast`. -/
inductive Prog where
  | nop : Prog
  | seq : Prog → Prog → Prog
  | updMetaP : Obj → Prog
  | stackP : String → Prog
  | logP : LogLevel → Obj → Prog
  | levelP : LogLevel → Obj → Prog
  | castP : Prog → Prog

/-- Run a program. Every primitive acts on the active logger resolved by
`use_logger`. `castP` is `Logger.cast`: clone the active instance, bind the
clone as the context for the whole body (the `asyncLocalStorage.run` scope,
which covers the callback and its asynchronous continuations), and restore
the previous binding when the body is done. -/
def run : Prog → World → World
  | .nop, w => w
  | .seq p q, w => run q (run p w)
  | .updMetaP m, w =>
    match use_logger w with
    | some i => upd_meta w i m
    | none => w
  | .stackP s, w =>
    match use_logger w with
    | some i => stack w i s
    | none => w
  | .logP lvl d, w =>
    match use_logger w with
    | some i => log w i lvl d
    | none => w
  | .levelP lvl d, w =>
    match use_logger w with
    | some i => levelMethod w i lvl d
    | none => w
  | .castP p, w =>
    match use_logger w with
    | none => w
    | some i =>
      let j := w.loggers.length
      let w1 := clone w i
      let w2 := { w1 with ctx := some j }
      let w3 := run p w2
      { w3 with ctx := w.ctx }

/-- The side condition under which a metadata key, once set, stays set: the
program performs no further `upd_meta` whose argument carries that key —
anywhere, including inside nested `cast` scopes. Every other operation
(logging at any level, trace pushes, metadata updates to other keys, nested
casts) is unrestricted. -/
def avoids (k : String) : Prog → Prop
  | .nop => True
  | .seq p q => avoids k p ∧ avoids k q
  | .updMetaP m => getKey m k = none
  | .stackP _ => True
  | .logP _ _ => True
  | .levelP _ _ => True
  | .castP p => avoids k p

/-- A world holding one freshly created logger at minimum level `info`,
reachable as the global logger; used to instantiate the general theorems. -/
def w0 : World :=
  ⟨[⟨[], none, LogLevel.info⟩], [], [], none, some 0⟩

/-- A world whose single logger's metadata holds a reference to a heap
object; used to instantiate the aliasing theorems. -/
def wRef : World :=
  ⟨[⟨[("ctx", JVal.ref 0)], none, LogLevel.info⟩],
   [[("user", JVal.prim "alice")]], [], none, some 0⟩

/-- A world with no global logger and no active scope: the state before
`init_logger` ran. -/
def wUninit : World := ⟨[], [], [], none, none⟩

theorem getKey_setKey (o : Obj) (k k' : String) (v : JVal) :
    getKey (setKey o k v) k' = if k' = k then some v else getKey o k' := by
  induction o with
  | nil =>
    by_cases hk : k' = k <;> simp [getKey, setKey, hk, Ne.symm]
  | cons hd tl ih =>
    obtain ⟨a, b⟩ := hd
    by_cases ha : a = k
    · subst ha
      by_cases hk : k' = a
      · subst hk; simp [getKey, setKey]
      · simp [getKey, setKey, hk, Ne.symm hk]
    · by_cases hb : a = k'
      · subst hb
        simp [getKey, setKey, ha, Ne.symm ha]
      · simp [getKey, setKey, ha, hb, ih]

theorem getKey_setKey_self (o : Obj) (k : String) (v : JVal) :
    getKey (setKey o k v) k = some v := by
  simp [getKey_setKey]

theorem getKey_setKey_ne (o : Obj) (k k' : String) (v : JVal) (h : k' ≠ k) :
    getKey (setKey o k v) k' = getKey o k' := by
  simp [getKey_setKey, h]

theorem getKey_eq_none_of_not_mem (m : Obj) (k : String)
    (h : k ∉ m.map Prod.fst) : getKey m k = none := by
  induction m with
  | nil => rfl
  | cons hd tl ih =>
    obtain ⟨a, b⟩ := hd
    simp only [List.map_cons, List.mem_cons, not_or] at h
    simp [getKey, Ne.symm h.1, ih h.2]

theorem getKey_assignObj (o m : Obj) (k : String)
    (hm : (m.map Prod.fst).Nodup) :
    getKey (assignObj o m) k
      = match getKey m k with
        | some v => some v
        | none => getKey o k := by
  induction m generalizing o with
  | nil => rfl
  | cons hd tl ih =>
    obtain ⟨a, b⟩ := hd
    simp only [List.map_cons, List.nodup_cons] at hm
    have hunf : assignObj o ((a, b) :: tl) = assignObj (setKey o a b) tl := rfl
    rw [hunf, ih (setKey o a b) hm.2]
    by_cases hk : k = a
    · subst hk
      have h1 : getKey tl k = none :=
        getKey_eq_none_of_not_mem tl k hm.1
      simp [h1, getKey, getKey_setKey]
    · have h2 : getKey ((a, b) :: tl) k = getKey tl k := by
        simp [getKey, Ne.symm hk]
      rw [h2, getKey_setKey]
      simp [hk]

theorem upd_meta_ctx (w : World) (i : Nat) (m : Obj) :
    (upd_meta w i m).ctx = w.ctx := by
  cases h : getLogger w i <;> simp [upd_meta, h, setLogger]

theorem upd_meta_global (w : World) (i : Nat) (m : Obj) :
    (upd_meta w i m).global = w.global := by
  cases h : getLogger w i <;> simp [upd_meta, h, setLogger]

theorem upd_meta_heap (w : World) (i : Nat) (m : Obj) :
    (upd_meta w i m).heap = w.heap := by
  cases h : getLogger w i <;> simp [upd_meta, h, setLogger]

theorem upd_meta_calls (w : World) (i : Nat) (m : Obj) :
    (upd_meta w i m).calls = w.calls := by
  cases h : getLogger w i <;> simp [upd_meta, h, setLogger]

theorem upd_meta_length (w : World) (i : Nat) (m : Obj) :
    (upd_meta w i m).loggers.length = w.loggers.length := by
  cases h : getLogger w i <;> simp [upd_meta, h, setLogger]

theorem upd_meta_loggers_ne (w : World) (i k : Nat) (m : Obj) (hk : k ≠ i) :
    (upd_meta w i m).loggers[k]? = w.loggers[k]? := by
  cases h : getLogger w i <;>
    simp [upd_meta, h, setLogger, List.getElem?_set_ne (Ne.symm hk)]

theorem stack_ctx (w : World) (i : Nat) (s : String) :
    (stack w i s).ctx = w.ctx := by
  cases h : getLogger w i <;> simp [stack, h, setLogger]

theorem stack_global (w : World) (i : Nat) (s : String) :
    (stack w i s).global = w.global := by
  cases h : getLogger w i <;> simp [stack, h, setLogger]

theorem stack_heap (w : World) (i : Nat) (s : String) :
    (stack w i s).heap = w.heap := by
  cases h : getLogger w i <;> simp [stack, h, setLogger]

theorem stack_calls (w : World) (i : Nat) (s : String) :
    (stack w i s).calls = w.calls := by
  cases h : getLogger w i <;> simp [stack, h, setLogger]

theorem stack_length (w : World) (i : Nat) (s : String) :
    (stack w i s).loggers.length = w.loggers.length := by
  cases h : getLogger w i <;> simp [stack, h, setLogger]

theorem stack_loggers_ne (w : World) (i k : Nat) (s : String) (hk : k ≠ i) :
    (stack w i s).loggers[k]? = w.loggers[k]? := by
  cases h : getLogger w i <;>
    simp [stack, h, setLogger, List.getElem?_set_ne (Ne.symm hk)]

theorem log_ctx (w : World) (i : Nat) (lvl : LogLevel) (d : Obj) :
    (log w i lvl d).ctx = w.ctx := by
  cases h : getLogger w i <;> simp [log, h]

theorem log_global (w : World) (i : Nat) (lvl : LogLevel) (d : Obj) :
    (log w i lvl d).global = w.global := by
  cases h : getLogger w i <;> simp [log, h]

theorem log_heap (w : World) (i : Nat) (lvl : LogLevel) (d : Obj) :
    (log w i lvl d).heap = w.heap := by
  cases h : getLogger w i <;> simp [log, h]

theorem log_loggers (w : World) (i : Nat) (lvl : LogLevel) (d : Obj) :
    (log w i lvl d).loggers = w.loggers := by
  cases h : getLogger w i <;> simp [log, h]

theorem log_calls (w : World) (i : Nat) (lvl : LogLevel) (d : Obj)
    (s : LoggerState) (h : getLogger w i = some s) :
    (log w i lvl d).calls
      = w.calls ++ [(lvl, composeData s._stack d, s.meta)] := by
  simp [log, h]

theorem clone_ctx (w : World) (i : Nat) : (clone w i).ctx = w.ctx := by
  cases h : getLogger w i <;> simp [clone, h]

theorem clone_global (w : World) (i : Nat) : (clone w i).global = w.global := by
  cases h : getLogger w i <;> simp [clone, h]

theorem clone_heap (w : World) (i : Nat) : (clone w i).heap = w.heap := by
  cases h : getLogger w i <;> simp [clone, h]

theorem clone_calls (w : World) (i : Nat) : (clone w i).calls = w.calls := by
  cases h : getLogger w i <;> simp [clone, h]

theorem length_le_clone (w : World) (i : Nat) :
    w.loggers.length ≤ (clone w i).loggers.length := by
  cases h : getLogger w i <;> simp [clone, h]

theorem clone_loggers_lt (w : World) (i k : Nat) (hk : k < w.loggers.length) :
    (clone w i).loggers[k]? = w.loggers[k]? := by
  cases h : getLogger w i <;> simp [clone, h, List.getElem?_append_left hk]

theorem clone_loggers_new (w : World) (i : Nat) (s : LoggerState)
    (h : getLogger w i = some s) :
    (clone w i).loggers[w.loggers.length]? = some ⟨s.meta, s._stack, s.level⟩ := by
  simp [clone, h, List.getElem?_concat_length]

theorem levelMethod_ctx (w : World) (i : Nat) (lvl : LogLevel) (d : Obj) :
    (levelMethod w i lvl d).ctx = w.ctx := by
  cases h : getLogger w i
  · simp [levelMethod, h]
  · simp only [levelMethod, h]
    split
    · exact log_ctx w i lvl d
    · rfl

theorem levelMethod_global (w : World) (i : Nat) (lvl : LogLevel) (d : Obj) :
    (levelMethod w i lvl d).global = w.global := by
  cases h : getLogger w i
  · simp [levelMethod, h]
  · simp only [levelMethod, h]
    split
    · exact log_global w i lvl d
    · rfl

theorem levelMethod_heap (w : World) (i : Nat) (lvl : LogLevel) (d : Obj) :
    (levelMethod w i lvl d).heap = w.heap := by
  cases h : getLogger w i
  · simp [levelMethod, h]
  · simp only [levelMethod, h]
    split
    · exact log_heap w i lvl d
    · rfl

theorem levelMethod_loggers (w : World) (i : Nat) (lvl : LogLevel) (d : Obj) :
    (levelMethod w i lvl d).loggers = w.loggers := by
  cases h : getLogger w i
  · simp [levelMethod, h]
  · simp only [levelMethod, h]
    split
    · exact log_loggers w i lvl d
    · rfl

theorem run_ctx (p : Prog) : ∀ w : World, (run p w).ctx = w.ctx := by
  induction p with
  | nop => intro w; rfl
  | seq p q ihp ihq => intro w; rw [run, ihq, ihp]
  | updMetaP m =>
    intro w; cases hu : use_logger w <;> simp [run, hu, upd_meta_ctx]
  | stackP s =>
    intro w; cases hu : use_logger w <;> simp [run, hu, stack_ctx]
  | logP lvl d =>
    intro w; cases hu : use_logger w <;> simp [run, hu, log_ctx]
  | levelP lvl d =>
    intro w; cases hu : use_logger w <;> simp [run, hu, levelMethod_ctx]
  | castP p ih =>
    intro w; cases hu : use_logger w <;> simp [run, hu]

theorem run_global (p : Prog) : ∀ w : World, (run p w).global = w.global := by
  induction p with
  | nop => intro w; rfl
  | seq p q ihp ihq => intro w; rw [run, ihq, ihp]
  | updMetaP m =>
    intro w; cases hu : use_logger w <;> simp [run, hu, upd_meta_global]
  | stackP s =>
    intro w; cases hu : use_logger w <;> simp [run, hu, stack_global]
  | logP lvl d =>
    intro w; cases hu : use_logger w <;> simp [run, hu, log_global]
  | levelP lvl d =>
    intro w; cases hu : use_logger w <;> simp [run, hu, levelMethod_global]
  | castP p ih =>
    intro w
    cases hu : use_logger w
    · simp [run, hu]
    · simp [run, hu, ih, clone_global]

theorem use_logger_run (p : Prog) (w : World) :
    use_logger (run p w) = use_logger w := by
  unfold use_logger
  rw [run_ctx, run_global]

theorem run_length (p : Prog) : ∀ w : World,
    w.loggers.length ≤ (run p w).loggers.length := by
  induction p with
  | nop => intro w; exact le_rfl
  | seq p q ihp ihq =>
    intro w; rw [run]; exact le_trans (ihp w) (ihq (run p w))
  | updMetaP m =>
    intro w
    cases hu : use_logger w
    · simp [run, hu]
    · simp [run, hu, upd_meta_length]
  | stackP s =>
    intro w
    cases hu : use_logger w
    · simp [run, hu]
    · simp [run, hu, stack_length]
  | logP lvl d =>
    intro w
    cases hu : use_logger w
    · simp [run, hu]
    · simp [run, hu, log_loggers]
  | levelP lvl d =>
    intro w
    cases hu : use_logger w
    · simp [run, hu]
    · simp [run, hu, levelMethod_loggers]
  | castP p ih =>
    intro w
    cases hu : use_logger w
    · simp [run, hu]
    · rename_i i
      simp only [run, hu]
      exact le_trans (length_le_clone w i)
        (ih { clone w i with ctx := some w.loggers.length })

theorem run_frame (p : Prog) : ∀ (w : World) (k : Nat),
    k < w.loggers.length → use_logger w ≠ some k →
    (run p w).loggers[k]? = w.loggers[k]? := by
  induction p with
  | nop => intro w k _ _; rfl
  | seq p q ihp ihq =>
    intro w k hk hu
    have hk2 : k < (run p w).loggers.length := lt_of_lt_of_le hk (run_length p w)
    have hu2 : use_logger (run p w) ≠ some k := by
      rw [use_logger_run]; exact hu
    rw [run, ihq (run p w) k hk2 hu2, ihp w k hk hu]
  | updMetaP m =>
    intro w k hk hu
    cases hm : use_logger w
    · simp [run, hm]
    · rename_i i
      have hne : k ≠ i := by rintro rfl; rw [hm] at hu; exact hu rfl
      simp [run, hm, upd_meta_loggers_ne w i k m hne]
  | stackP s =>
    intro w k hk hu
    cases hm : use_logger w
    · simp [run, hm]
    · rename_i i
      have hne : k ≠ i := by rintro rfl; rw [hm] at hu; exact hu rfl
      simp [run, hm, stack_loggers_ne w i k s hne]
  | logP lvl d =>
    intro w k hk hu
    cases hm : use_logger w
    · simp [run, hm]
    · simp [run, hm, log_loggers]
  | levelP lvl d =>
    intro w k hk hu
    cases hm : use_logger w
    · simp [run, hm]
    · simp [run, hm, levelMethod_loggers]
  | castP p ih =>
    intro w k hk hu
    cases hm : use_logger w
    · simp [run, hm]
    · rename_i i
      simp only [run, hm]
      have hk1 : k < (clone w i).loggers.length :=
        lt_of_lt_of_le hk (length_le_clone w i)
      have hne : use_logger { clone w i with ctx := some w.loggers.length }
          ≠ some k := by
        simp [use_logger]
        exact Nat.ne_of_gt hk
      have := ih { clone w i with ctx := some w.loggers.length } k hk1 hne
      simp only [this]
      exact clone_loggers_lt w i k hk

theorem list_getElem?_lt {α : Type} {l : List α} {n : Nat} {x : α}
    (h : l[n]? = some x) : n < l.length := by
  by_contra hc
  push_neg at hc
  rw [List.getElem?_eq_none hc] at h
  exact Option.noConfusion h

theorem setHeapKey_loggers (w : World) (a : Nat) (k : String) (v : JVal) :
    (setHeapKey w a k v).loggers = w.loggers := by
  cases h : w.heap[a]? <;> simp [setHeapKey, h]

theorem setHeapKey_calls (w : World) (a : Nat) (k : String) (v : JVal) :
    (setHeapKey w a k v).calls = w.calls := by
  cases h : w.heap[a]? <;> simp [setHeapKey, h]

theorem getLogger_lt {w : World} {i : Nat} {s : LoggerState}
    (h : getLogger w i = some s) : i < w.loggers.length := by
  by_contra hc
  push_neg at hc
  unfold getLogger at h
  rw [List.getElem?_eq_none hc] at h
  exact Option.noConfusion h

theorem getKey_assignObj_none (o m : Obj) (k : String)
    (hm : getKey m k = none) : getKey (assignObj o m) k = getKey o k := by
  induction m generalizing o with
  | nil => rfl
  | cons hd tl ih =>
    obtain ⟨a, b⟩ := hd
    by_cases ha : a = k
    · subst ha
      simp [getKey] at hm
    · have htl : getKey tl k = none := by simpa [getKey, ha] using hm
      have hunf : assignObj o ((a, b) :: tl) = assignObj (setKey o a b) tl := rfl
      rw [hunf, ih (setKey o a b) htl]
      exact getKey_setKey_ne o a k b (fun hc => ha hc.symm)

theorem use_logger_congr {w w' : World} (hc : w'.ctx = w.ctx)
    (hg : w'.global = w.global) : use_logger w' = use_logger w := by
  unfold use_logger
  rw [hc, hg]

theorem getLogger_upd_meta_self (w : World) (i : Nat) (m : Obj)
    (s : LoggerState) (hg : getLogger w i = some s) :
    getLogger (upd_meta w i m) i
      = some ⟨assignObj s.meta m, s._stack, s.level⟩ := by
  have hi : i < w.loggers.length := getLogger_lt hg
  have hg' : w.loggers[i]? = some s := hg
  simp [upd_meta, hg, hg', setLogger, getLogger,
    List.getElem?_set_eq_of_lt _ hi]

theorem getLogger_stack_self (w : World) (i : Nat) (seg : String)
    (s : LoggerState) (hg : getLogger w i = some s) :
    getLogger (stack w i seg) i
      = some ⟨s.meta, some (match s._stack with
          | none => seg
          | some t => t ++ "." ++ seg), s.level⟩ := by
  have hi : i < w.loggers.length := getLogger_lt hg
  have hg' : w.loggers[i]? = some s := hg
  simp [stack, hg, hg', setLogger, getLogger,
    List.getElem?_set_eq_of_lt _ hi]

theorem run_calls_append (p : Prog) : ∀ w : World,
    ∃ new, (run p w).calls = w.calls ++ new := by
  induction p with
  | nop => intro w; exact ⟨[], by simp [run]⟩
  | seq p q ihp ihq =>
    intro w
    obtain ⟨n₁, h₁⟩ := ihp w
    obtain ⟨n₂, h₂⟩ := ihq (run p w)
    refine ⟨n₁ ++ n₂, ?_⟩
    show (run q (run p w)).calls = _
    rw [h₂, h₁, List.append_assoc]
  | updMetaP m =>
    intro w
    cases hu : use_logger w
    · exact ⟨[], by simp [run, hu]⟩
    · exact ⟨[], by simp [run, hu, upd_meta_calls]⟩
  | stackP s =>
    intro w
    cases hu : use_logger w
    · exact ⟨[], by simp [run, hu]⟩
    · exact ⟨[], by simp [run, hu, stack_calls]⟩
  | logP lvl d =>
    intro w
    cases hu : use_logger w
    · exact ⟨[], by simp [run, hu]⟩
    · rename_i i
      cases hg : getLogger w i
      · exact ⟨[], by simp [run, hu, log, hg]⟩
      · rename_i s
        refine ⟨[(lvl, composeData s._stack d, s.meta)], ?_⟩
        simp only [run, hu]
        exact log_calls w i lvl d s hg
  | levelP lvl d =>
    intro w
    cases hu : use_logger w
    · exact ⟨[], by simp [run, hu]⟩
    · rename_i i
      cases hg : getLogger w i
      · exact ⟨[], by simp [run, hu, levelMethod, hg]⟩
      · rename_i s
        by_cases hle : lvl.toNat ≤ s.level.toNat
        · refine ⟨[(lvl, composeData s._stack d, s.meta)], ?_⟩
          simp only [run, hu, levelMethod, hg, if_pos hle]
          exact log_calls w i lvl d s hg
        · exact ⟨[], by simp [run, hu, levelMethod, hg, hle]⟩
  | castP p ih =>
    intro w
    cases hu : use_logger w
    · exact ⟨[], by simp [run, hu]⟩
    · rename_i i
      obtain ⟨n, hn⟩ := ih { clone w i with ctx := some w.loggers.length }
      refine ⟨n, ?_⟩
      have hrun : run (Prog.castP p) w
          = { run p { clone w i with ctx := some w.loggers.length }
              with ctx := w.ctx } := by
        simp only [run, hu]
      rw [hrun]
      show (run p { clone w i with ctx := some w.loggers.length }).calls = _
      rw [hn]
      show (clone w i).calls ++ n = _
      rw [clone_calls]

theorem run_meta_visible (k : String) (v : JVal) (p : Prog) :
    ∀ (w : World) (i : Nat) (s : LoggerState),
      use_logger w = some i → getLogger w i = some s →
      getKey s.meta k = some v → avoids k p →
      (∃ s', getLogger (run p w) i = some s' ∧ getKey s'.meta k = some v)
      ∧ ∃ new, (run p w).calls = w.calls ++ new
          ∧ ∀ c ∈ new, getKey c.2.2 k = some v := by
  induction p with
  | nop =>
    intro w i s hu hg hk _
    exact ⟨⟨s, hg, hk⟩, ⟨[], by simp [run], by simp⟩⟩
  | seq p q ihp ihq =>
    intro w i s hu hg hk ha
    simp only [avoids] at ha
    obtain ⟨⟨s₁, hg₁, hk₁⟩, ⟨n₁, hc₁, hm₁⟩⟩ := ihp w i s hu hg hk ha.1
    have hu₁ : use_logger (run p w) = some i := by
      rw [use_logger_run]; exact hu
    obtain ⟨⟨s₂, hg₂, hk₂⟩, ⟨n₂, hc₂, hm₂⟩⟩ :=
      ihq (run p w) i s₁ hu₁ hg₁ hk₁ ha.2
    refine ⟨⟨s₂, ?_, hk₂⟩, ⟨n₁ ++ n₂, ?_, ?_⟩⟩
    · show getLogger (run q (run p w)) i = some s₂
      exact hg₂
    · show (run q (run p w)).calls = _
      rw [hc₂, hc₁, List.append_assoc]
    · intro c hc
      rcases List.mem_append.1 hc with h | h
      · exact hm₁ c h
      · exact hm₂ c h
  | updMetaP m =>
    intro w i s hu hg hk ha
    simp only [avoids] at ha
    have hrun : run (Prog.updMetaP m) w = upd_meta w i m := by
      simp only [run, hu]
    rw [hrun]
    refine ⟨⟨⟨assignObj s.meta m, s._stack, s.level⟩,
        getLogger_upd_meta_self w i m s hg, ?_⟩, ⟨[], ?_, by simp⟩⟩
    · show getKey (assignObj s.meta m) k = some v
      rw [getKey_assignObj_none s.meta m k ha]
      exact hk
    · rw [upd_meta_calls]
      simp
  | stackP seg =>
    intro w i s hu hg hk _
    have hrun : run (Prog.stackP seg) w = stack w i seg := by
      simp only [run, hu]
    rw [hrun]
    refine ⟨⟨_, getLogger_stack_self w i seg s hg, hk⟩, ⟨[], ?_, by simp⟩⟩
    rw [stack_calls]
    simp
  | logP lvl d =>
    intro w i s hu hg hk _
    have hrun : run (Prog.logP lvl d) w = log w i lvl d := by
      simp only [run, hu]
    rw [hrun]
    refine ⟨⟨s, ?_, hk⟩, ⟨[(lvl, composeData s._stack d, s.meta)],
        log_calls w i lvl d s hg, ?_⟩⟩
    · show (log w i lvl d).loggers[i]? = some s
      rw [log_loggers]
      exact hg
    · intro c hc
      rw [List.mem_singleton] at hc
      subst hc
      exact hk
  | levelP lvl d =>
    intro w i s hu hg hk _
    have hrun : run (Prog.levelP lvl d) w = levelMethod w i lvl d := by
      simp only [run, hu]
    rw [hrun]
    by_cases hle : lvl.toNat ≤ s.level.toNat
    · have hlm : levelMethod w i lvl d = log w i lvl d := by
        simp only [levelMethod, hg, if_pos hle]
      rw [hlm]
      refine ⟨⟨s, ?_, hk⟩, ⟨[(lvl, composeData s._stack d, s.meta)],
          log_calls w i lvl d s hg, ?_⟩⟩
      · show (log w i lvl d).loggers[i]? = some s
        rw [log_loggers]
        exact hg
      · intro c hc
        rw [List.mem_singleton] at hc
        subst hc
        exact hk
    · have hlm : levelMethod w i lvl d = w := by
        simp only [levelMethod, hg, if_neg hle]
      rw [hlm]
      exact ⟨⟨s, hg, hk⟩, ⟨[], by simp, by simp⟩⟩
  | castP p ih =>
    intro w i s hu hg hk ha
    simp only [avoids] at ha
    have hi : i < w.loggers.length := getLogger_lt hg
    have hrun : run (Prog.castP p) w
        = { run p { clone w i with ctx := some w.loggers.length }
            with ctx := w.ctx } := by
      simp only [run, hu]
    have hu2 : use_logger { clone w i with ctx := some w.loggers.length }
        = some w.loggers.length := rfl
    have hg2 : getLogger { clone w i with ctx := some w.loggers.length }
        w.loggers.length = some ⟨s.meta, s._stack, s.level⟩ :=
      clone_loggers_new w i s hg
    obtain ⟨_, ⟨new, hc, hm⟩⟩ :=
      ih { clone w i with ctx := some w.loggers.length } w.loggers.length
        ⟨s.meta, s._stack, s.level⟩ hu2 hg2 hk ha
    rw [hrun]
    refine ⟨⟨s, ?_, hk⟩, ⟨new, ?_, hm⟩⟩
    · show (run p { clone w i with ctx := some w.loggers.length }).loggers[i]?
          = some s
      have hk1 : i < (clone w i).loggers.length :=
        lt_of_lt_of_le hi (length_le_clone w i)
      have hne : use_logger { clone w i with ctx := some w.loggers.length }
          ≠ some i := by
        rw [hu2]
        intro hc'
        exact Nat.ne_of_gt hi (Option.some.inj hc')
      rw [run_frame p { clone w i with ctx := some w.loggers.length } i hk1 hne]
      show (clone w i).loggers[i]? = some s
      rw [clone_loggers_lt w i i hi]
      exact hg
    · show (run p { clone w i with ctx := some w.loggers.length }).calls = _
      rw [hc]
      show (clone w i).calls ++ new = _
      rw [clone_calls]

/-- C6: `upd_meta(m)` performs an in-place shallow merge on the entity's
metadata: afterwards every top-level key present in `m` maps to exactly `m`'s
value for it (a nested object value is replaced wholesale, never deep-merged),
and every top-level key absent from `m` keeps its previous value; trace and
minimum level are untouched. -/
theorem upd_meta_shallow_merge (w : World) (i : Nat) (m : Obj) (s : LoggerState)
    (hs : getLogger w i = some s) (hm : (m.map Prod.fst).Nodup) :
    getLogger (upd_meta w i m) i
        = some ⟨assignObj s.meta m, s._stack, s.level⟩
      ∧ ∀ k, getKey (assignObj s.meta m) k
          = match getKey m k with
            | some v => some v
            | none => getKey s.meta k := by
  constructor
  · have hi : i < w.loggers.length := getLogger_lt hs
    have hs' : w.loggers[i]? = some s := hs
    simp [upd_meta, hs, hs', setLogger, getLogger,
      List.getElem?_set_eq_of_lt _ hi]
  · intro k
    exact getKey_assignObj s.meta m k hm

/-- C6 witness: the shallow merge on a concrete one-logger world. -/
theorem upd_meta_shallow_merge_witness :
    getLogger (upd_meta w0 0 [("a", JVal.prim "1")]) 0
        = some ⟨assignObj ([] : Obj) [("a", JVal.prim "1")], none, LogLevel.info⟩
      ∧ ∀ k, getKey (assignObj ([] : Obj) [("a", JVal.prim "1")]) k
          = match getKey [("a", JVal.prim "1")] k with
            | some v => some v
            | none => getKey ([] : Obj) k :=
  upd_meta_shallow_merge w0 0 [("a", JVal.prim "1")] ⟨[], none, LogLevel.info⟩
    rfl (by simp)

/-- C4: after `clone()`, `upd_meta` on the clone leaves the original entity's
state and the heap untouched — so the original's subsequent log calls pass
the unchanged metadata to the transport — and `upd_meta` on the original
leaves the clone's state and the heap untouched. -/
theorem clone_metadata_isolation (w : World) (i : Nat) (m : Obj)
    (s : LoggerState) (hs : getLogger w i = some s) :
    (getLogger (upd_meta (clone w i) w.loggers.length m) i = some s
      ∧ (upd_meta (clone w i) w.loggers.length m).heap = w.heap
      ∧ ∀ lvl d, (log (upd_meta (clone w i) w.loggers.length m) i lvl d).calls
          = (upd_meta (clone w i) w.loggers.length m).calls
            ++ [(lvl, composeData s._stack d, s.meta)])
    ∧ (getLogger (upd_meta (clone w i) i m) w.loggers.length
        = some ⟨s.meta, s._stack, s.level⟩
      ∧ (upd_meta (clone w i) i m).heap = w.heap) := by
  have hi : i < w.loggers.length := getLogger_lt hs
  have hne : i ≠ w.loggers.length := Nat.ne_of_lt hi
  have hgi : getLogger (upd_meta (clone w i) w.loggers.length m) i = some s := by
    unfold getLogger
    rw [upd_meta_loggers_ne _ _ _ _ hne, clone_loggers_lt w i i hi]
    exact hs
  refine ⟨⟨hgi, ?_, ?_⟩, ?_, ?_⟩
  · rw [upd_meta_heap, clone_heap]
  · intro lvl d
    exact log_calls _ i lvl d s hgi
  · unfold getLogger
    rw [upd_meta_loggers_ne _ _ _ _ (Ne.symm hne)]
    exact clone_loggers_new w i s hs
  · rw [upd_meta_heap, clone_heap]

/-- C4 witness: clone isolation on a concrete one-logger world. -/
theorem clone_metadata_isolation_witness :
    (getLogger (upd_meta (clone w0 0) w0.loggers.length [("a", JVal.prim "1")]) 0
        = some ⟨[], none, LogLevel.info⟩
      ∧ (upd_meta (clone w0 0) w0.loggers.length [("a", JVal.prim "1")]).heap = w0.heap
      ∧ ∀ lvl d,
          (log (upd_meta (clone w0 0) w0.loggers.length [("a", JVal.prim "1")]) 0 lvl d).calls
            = (upd_meta (clone w0 0) w0.loggers.length [("a", JVal.prim "1")]).calls
              ++ [(lvl, composeData none d, [])])
    ∧ (getLogger (upd_meta (clone w0 0) 0 [("a", JVal.prim "1")]) w0.loggers.length
        = some ⟨[], none, LogLevel.info⟩
      ∧ (upd_meta (clone w0 0) 0 [("a", JVal.prim "1")]).heap = w0.heap) :=
  clone_metadata_isolation w0 0 [("a", JVal.prim "1")] ⟨[], none, LogLevel.info⟩ rfl

/-- C3: the per-level convenience method generated at construction filters on
the fixed minimum level: a less severe level (numeric value greater than the
minimum) leaves the world untouched and never reaches the transport, an
accepted level invokes the transport exactly once with
`(lvl, data, meta)`; concretely, a freshly initialized logger with minimum
level `error` (numeric 2) records nothing for `.info` and exactly one call
`(error, data, empty meta)` for `.error` on `data = [(msg, x)]`. -/
theorem level_filtering (w : World) (i : Nat) (lvl : LogLevel) (d : Obj)
    (s : LoggerState) (hs : getLogger w i = some s) :
    (s.level.toNat < lvl.toNat → levelMethod w i lvl d = w)
    ∧ (lvl.toNat ≤ s.level.toNat →
        (levelMethod w i lvl d).calls
          = w.calls ++ [(lvl, composeData s._stack d, s.meta)])
    ∧ levelMethod (init_logger wUninit .error) 0 .info [("msg", .prim "x")]
        = init_logger wUninit .error
    ∧ (levelMethod (init_logger wUninit .error) 0 .error [("msg", .prim "x")]).calls
        = [(.error, [("msg", .prim "x")], [])]
    ∧ LogLevel.error.toNat = 2 ∧ LogLevel.info.toNat = 4 := by
  refine ⟨?_, ?_, rfl, rfl, rfl, rfl⟩
  · intro h
    simp [levelMethod, hs, Nat.not_le.2 h]
  · intro h
    rw [levelMethod, hs]
    simp only [if_pos h]
    exact log_calls w i lvl d s hs

/-- C3 witness: level filtering instantiated on a concrete logger with
minimum level `info`. -/
theorem level_filtering_witness :
    ((⟨[], none, LogLevel.info⟩ : LoggerState).level.toNat < LogLevel.debug1.toNat →
        levelMethod w0 0 .debug1 [("msg", .prim "x")] = w0)
    ∧ (LogLevel.debug1.toNat ≤ (⟨[], none, LogLevel.info⟩ : LoggerState).level.toNat →
        (levelMethod w0 0 .debug1 [("msg", .prim "x")]).calls
          = w0.calls ++ [(.debug1, composeData none [("msg", .prim "x")], [])])
    ∧ levelMethod (init_logger wUninit .error) 0 .info [("msg", .prim "x")]
        = init_logger wUninit .error
    ∧ (levelMethod (init_logger wUninit .error) 0 .error [("msg", .prim "x")]).calls
        = [(.error, [("msg", .prim "x")], [])]
    ∧ LogLevel.error.toNat = 2 ∧ LogLevel.info.toNat = 4 :=
  level_filtering w0 0 .debug1 [("msg", .prim "x")] ⟨[], none, LogLevel.info⟩ rfl

/-- C5: the trace accumulator appends and never removes: the first
`stack(segment)` sets the trace to the segment, each later one appends
`'.' ++ segment`; concretely `stack('a')` then `stack('b')` then a log whose
data lacks `code` records `code = 'a.b'`, and a log with explicit
`code = 'c'` records `code = 'a.b.c'`. -/
theorem trace_accumulation (w : World) (i : Nat) (seg : String)
    (s : LoggerState) (hs : getLogger w i = some s) :
    (s._stack = none →
        getLogger (stack w i seg) i = some ⟨s.meta, some seg, s.level⟩)
    ∧ (∀ t, s._stack = some t →
        getLogger (stack w i seg) i
          = some ⟨s.meta, some (t ++ "." ++ seg), s.level⟩)
    ∧ (log (stack (stack w0 0 "a") 0 "b") 0 .info [("msg", .prim "m")]).calls
        = [(.info, [("msg", .prim "m"), ("code", .prim "a.b")], [])]
    ∧ (log (stack (stack w0 0 "a") 0 "b") 0 .info
          [("msg", .prim "m"), ("code", .prim "c")]).calls
        = [(.info, [("msg", .prim "m"), ("code", .prim "a.b.c")], [])] := by
  have hi : i < w.loggers.length := getLogger_lt hs
  have hs' : w.loggers[i]? = some s := hs
  refine ⟨?_, ?_, rfl, rfl⟩
  · intro h
    simp [stack, hs, hs', h, setLogger, getLogger,
      List.getElem?_set_eq_of_lt _ hi]
  · intro t h
    simp [stack, hs, hs', h, setLogger, getLogger,
      List.getElem?_set_eq_of_lt _ hi]

/-- C5 witness: trace accumulation instantiated on the concrete one-logger
world. -/
theorem trace_accumulation_witness :
    ((⟨[], none, LogLevel.info⟩ : LoggerState)._stack = none →
        getLogger (stack w0 0 "a") 0 = some ⟨[], some "a", LogLevel.info⟩)
    ∧ (∀ t, (⟨[], none, LogLevel.info⟩ : LoggerState)._stack = some t →
        getLogger (stack w0 0 "a") 0
          = some ⟨[], some (t ++ "." ++ "a"), LogLevel.info⟩)
    ∧ (log (stack (stack w0 0 "a") 0 "b") 0 .info [("msg", .prim "m")]).calls
        = [(.info, [("msg", .prim "m"), ("code", .prim "a.b")], [])]
    ∧ (log (stack (stack w0 0 "a") 0 "b") 0 .info
          [("msg", .prim "m"), ("code", .prim "c")]).calls
        = [(.info, [("msg", .prim "m"), ("code", .prim "a.b.c")], [])] :=
  trace_accumulation w0 0 "a" ⟨[], none, LogLevel.info⟩ rfl

/-- C9: the raw `log` operation applies no minimum-level filtering: it always
invokes the transport exactly once, whatever the relation between its level
and the entity's minimum level; hence a dispatch-failure record reaches the
transport even at a level strictly less severe than the minimum. -/
theorem raw_log_unfiltered (w : World) (i : Nat) (lvl : LogLevel) (d : Obj)
    (s : LoggerState) (hs : getLogger w i = some s) :
    (log w i lvl d).calls.length = w.calls.length + 1
    ∧ (log w i lvl d).calls
        = w.calls ++ [(lvl, composeData s._stack d, s.meta)]
    ∧ (∀ e, s.level.toNat < lvl.toNat →
        (dispatch w i lvl (.rejected e)).calls
          = w.calls ++ [(lvl,
              composeData s._stack
                [("code", .prim "dispatch_failed"), ("error", format_error e)],
              s.meta)]) := by
  have h1 := log_calls w i lvl d s hs
  refine ⟨by rw [h1]; simp, h1, ?_⟩
  intro e _
  exact log_calls w i lvl
    [("code", .prim "dispatch_failed"), ("error", format_error e)] s hs

/-- C9 witness: raw logging at `debug3` (less severe than the `info`
minimum) still reaches the transport. -/
theorem raw_log_unfiltered_witness :
    (log w0 0 .debug3 [("msg", .prim "m")]).calls.length = w0.calls.length + 1
    ∧ (log w0 0 .debug3 [("msg", .prim "m")]).calls
        = w0.calls ++ [(.debug3, composeData none [("msg", .prim "m")], [])]
    ∧ (∀ e, (LogLevel.info).toNat < (LogLevel.debug3).toNat →
        (dispatch w0 0 .debug3 (.rejected e)).calls
          = w0.calls ++ [(.debug3,
              composeData none
                [("code", .prim "dispatch_failed"), ("error", format_error e)],
              [])]) :=
  raw_log_unfiltered w0 0 .debug3 [("msg", .prim "m")] ⟨[], none, LogLevel.info⟩ rfl

/-- C2: a rejected dispatch action is caught by the `.catch` handler,
converted with `format_error`, and logged at the caller's level with the data
`code = 'dispatch_failed', error = formatted`; a fulfilled action logs
nothing; `dispatch` is total on outcomes, so no failure of the action reaches
its caller. -/
theorem dispatch_failure_contained (w : World) (i : Nat) (lvl : LogLevel)
    (e : JVal) (s : LoggerState) (hs : getLogger w i = some s) :
    (dispatch w i lvl (.rejected e)).calls
      = w.calls ++ [(lvl,
          composeData s._stack
            [("code", .prim "dispatch_failed"), ("error", format_error e)],
          s.meta)]
    ∧ (s._stack = none →
        (dispatch w i lvl (.rejected e)).calls
          = w.calls ++ [(lvl,
              [("code", .prim "dispatch_failed"), ("error", format_error e)],
              s.meta)])
    ∧ dispatch w i lvl .fulfilled = w := by
  have h1 := log_calls w i lvl
    [("code", .prim "dispatch_failed"), ("error", format_error e)] s hs
  refine ⟨h1, ?_, rfl⟩
  intro h
  rw [h] at h1
  exact h1

/-- C2 witness: a concrete rejection with an `Error` carrying a cause is
caught and logged. -/
theorem dispatch_failure_contained_witness :
    (dispatch w0 0 .warning
        (.rejected (.err "TypeError" "boom" (some "TypeError: boom\n    at f1\n    at f2")
          [("extra", .prim "1")] (some (.prim "root"))))).calls
      = w0.calls ++ [(.warning,
          composeData none
            [("code", .prim "dispatch_failed"),
             ("error", format_error
                (.err "TypeError" "boom" (some "TypeError: boom\n    at f1\n    at f2")
                  [("extra", .prim "1")] (some (.prim "root"))))],
          [])]
    ∧ ((⟨[], none, LogLevel.info⟩ : LoggerState)._stack = none →
        (dispatch w0 0 .warning
            (.rejected (.err "TypeError" "boom" (some "TypeError: boom\n    at f1\n    at f2")
              [("extra", .prim "1")] (some (.prim "root"))))).calls
          = w0.calls ++ [(.warning,
              [("code", .prim "dispatch_failed"),
               ("error", format_error
                  (.err "TypeError" "boom" (some "TypeError: boom\n    at f1\n    at f2")
                    [("extra", .prim "1")] (some (.prim "root"))))],
              [])])
    ∧ dispatch w0 0 .warning .fulfilled = w0 :=
  dispatch_failure_contained w0 0 .warning
    (.err "TypeError" "boom" (some "TypeError: boom\n    at f1\n    at f2")
      [("extra", .prim "1")] (some (.prim "root")))
    ⟨[], none, LogLevel.info⟩ rfl

/-- C8: a synchronous throw while registering the deferred action in
`timeout` is caught and logged immediately with `code = 'timeout_failed'` and
the raw caught value in the `error` field; successful registration logs
nothing; `timeout` is total, so nothing propagates to its caller. -/
theorem timeout_sched_failure_contained (w : World) (i : Nat) (lvl : LogLevel)
    (ms : Int) (e : JVal) (s : LoggerState) (hs : getLogger w i = some s) :
    (timeout w i lvl ms (some e)).calls
      = w.calls ++ [(lvl,
          composeData s._stack [("code", .prim "timeout_failed"), ("error", e)],
          s.meta)]
    ∧ (s._stack = none →
        (timeout w i lvl ms (some e)).calls
          = w.calls ++ [(lvl,
              [("code", .prim "timeout_failed"), ("error", e)], s.meta)])
    ∧ timeout w i lvl ms none = w := by
  have h1 := log_calls w i lvl
    [("code", .prim "timeout_failed"), ("error", e)] s hs
  refine ⟨h1, ?_, rfl⟩
  intro h
  rw [h] at h1
  exact h1

/-- C8 witness: a concrete synchronous scheduling failure is caught and
logged. -/
theorem timeout_sched_failure_contained_witness :
    (timeout w0 0 .info (-5) (some (.prim "bad delay"))).calls
      = w0.calls ++ [(.info,
          composeData none [("code", .prim "timeout_failed"), ("error", .prim "bad delay")],
          [])]
    ∧ ((⟨[], none, LogLevel.info⟩ : LoggerState)._stack = none →
        (timeout w0 0 .info (-5) (some (.prim "bad delay"))).calls
          = w0.calls ++ [(.info,
              [("code", .prim "timeout_failed"), ("error", .prim "bad delay")], [])])
    ∧ timeout w0 0 .info (-5) none = w0 :=
  timeout_sched_failure_contained w0 0 .info (-5) (.prim "bad delay")
    ⟨[], none, LogLevel.info⟩ rfl

/-- C7 counterexample: with no global logger initialized and no active scope,
`use_logger()` silently yields `undefined`, and invoking a logging method on
that result crashes with an undefined-property access (`TypeError`) — not a
documented clear failure and not a lazily constructed no-op logger. -/
theorem use_uninitialized_crashes :
    use_logger wUninit = none
    ∧ info_via_use wUninit [("msg", JVal.prim "x")]
        = UseOutcome.crashUndefinedAccess :=
  ⟨rfl, rfl⟩

/-- C7 amended: the behavior is deterministic but undocumented and is an
unrelated crash: whenever neither the async context nor the global cell holds
a logger, `use_logger()` returns `undefined` and a level-method invocation
through it crashes with an undefined-property access. -/
theorem use_uninitialized_behavior (w : World) (d : Obj)
    (hc : w.ctx = none) (hg : w.global = none) :
    use_logger w = none
    ∧ info_via_use w d = UseOutcome.crashUndefinedAccess := by
  have hu : use_logger w = none := by
    unfold use_logger
    rw [hc, hg]
  refine ⟨hu, ?_⟩
  unfold info_via_use
  rw [hu]

/-- C7 witness: the amended behavior at the concrete uninitialized world. -/
theorem use_uninitialized_behavior_witness :
    use_logger wUninit = none
    ∧ info_via_use wUninit [] = UseOutcome.crashUndefinedAccess :=
  use_uninitialized_behavior wUninit [] rfl rfl

/-- C1: `cast(callback)` binds a fresh clone-derived entity for its whole
scope: after `cast` returns, the context binding and the global cell — and
hence `use()`'s result — are exactly as before the call; no entity that
existed before the call (in particular the previously active one) is changed
by anything the scope ran, so metadata set inside via `upd_meta` is never
visible to log calls issued outside; metadata set via `upd_meta` at any point
inside the scope is visible to every transport record produced later in that
scope and its descendants — an arbitrary continuation, with any number of log
calls, level-method calls, trace pushes, other metadata updates and nested
`cast` scopes, so long as the key is not updated again — every such record's
metadata carries the value that was set; and a scope's log record starts from
the parent's metadata (the clone derivation). -/
theorem cast_scope_isolation (w : World) (i : Nat) (p : Prog)
    (s : LoggerState) (hs : getLogger w i = some s)
    (hu : use_logger w = some i) :
    ((run (.castP p) w).ctx = w.ctx
      ∧ (run (.castP p) w).global = w.global
      ∧ use_logger (run (.castP p) w) = use_logger w)
    ∧ (∀ k, k < w.loggers.length →
        (run (.castP p) w).loggers[k]? = w.loggers[k]?)
    ∧ (∀ p₀ m q k v, (m.map Prod.fst).Nodup → getKey m k = some v →
        avoids k q →
        ∃ new,
          (run (.castP (.seq p₀ (.seq (.updMetaP m) q))) w).calls
            = (run (.castP (.seq p₀ (.updMetaP m))) w).calls ++ new
          ∧ ∀ c ∈ new, getKey c.2.2 k = some v)
    ∧ (∀ m lvl d,
        (run (.castP (.seq (.updMetaP m) (.logP lvl d))) w).calls
          = w.calls ++ [(lvl, composeData s._stack d, assignObj s.meta m)]) := by
  refine ⟨⟨run_ctx _ w, run_global _ w, use_logger_run _ w⟩, ?_, ?_, ?_⟩
  · intro k hk
    have hrun : run (Prog.castP p) w
        = { run p { clone w i with ctx := some w.loggers.length }
            with ctx := w.ctx } := by
      simp only [run, hu]
    rw [hrun]
    show (run p { clone w i with ctx := some w.loggers.length }).loggers[k]?
        = w.loggers[k]?
    have hk1 : k < (clone w i).loggers.length :=
      lt_of_lt_of_le hk (length_le_clone w i)
    have hne : use_logger { clone w i with ctx := some w.loggers.length }
        ≠ some k := by
      simp only [use_logger]
      intro hc
      exact Nat.ne_of_gt hk (Option.some.inj hc)
    have h1 := run_frame p { clone w i with ctx := some w.loggers.length } k hk1 hne
    rw [h1]
    exact clone_loggers_lt w i k hk
  · intro p₀ m q k v hnd hmk havq
    have hrunL : run (Prog.castP (Prog.seq p₀ (Prog.seq (Prog.updMetaP m) q))) w
        = { run q (run (Prog.updMetaP m)
              (run p₀ { clone w i with ctx := some w.loggers.length }))
            with ctx := w.ctx } := by
      simp only [run, hu]
    have hrunR : run (Prog.castP (Prog.seq p₀ (Prog.updMetaP m))) w
        = { run (Prog.updMetaP m)
              (run p₀ { clone w i with ctx := some w.loggers.length })
            with ctx := w.ctx } := by
      simp only [run, hu]
    have huA : use_logger
          (run p₀ { clone w i with ctx := some w.loggers.length })
        = some w.loggers.length := by
      rw [use_logger_run]
      rfl
    have hj : w.loggers.length
        < (run p₀ { clone w i with ctx := some w.loggers.length
            }).loggers.length := by
      have h1 : w.loggers.length < (clone w i).loggers.length :=
        list_getElem?_lt (clone_loggers_new w i s hs)
      exact lt_of_lt_of_le h1
        (run_length p₀ { clone w i with ctx := some w.loggers.length })
    obtain ⟨s₀, hA⟩ : ∃ s₀,
        getLogger (run p₀ { clone w i with ctx := some w.loggers.length })
          w.loggers.length = some s₀ := by
      cases hq : (run p₀ { clone w i with ctx := some w.loggers.length
          }).loggers[w.loggers.length]? with
      | none =>
        exfalso
        rw [List.getElem?_eq_getElem hj] at hq
        exact Option.noConfusion hq
      | some s₀ => exact ⟨s₀, hq⟩
    have hB : run (Prog.updMetaP m)
          (run p₀ { clone w i with ctx := some w.loggers.length })
        = upd_meta (run p₀ { clone w i with ctx := some w.loggers.length })
            w.loggers.length m := by
      simp only [run, huA]
    have hgB := getLogger_upd_meta_self
      (run p₀ { clone w i with ctx := some w.loggers.length })
      w.loggers.length m s₀ hA
    have hkB : getKey (assignObj s₀.meta m) k = some v := by
      rw [getKey_assignObj s₀.meta m k hnd, hmk]
    have huB : use_logger (upd_meta
          (run p₀ { clone w i with ctx := some w.loggers.length })
          w.loggers.length m) = some w.loggers.length := by
      rw [use_logger_congr (upd_meta_ctx _ _ _) (upd_meta_global _ _ _)]
      exact huA
    obtain ⟨_, ⟨new, hcq, hmq⟩⟩ := run_meta_visible k v q
      (upd_meta (run p₀ { clone w i with ctx := some w.loggers.length })
        w.loggers.length m)
      w.loggers.length ⟨assignObj s₀.meta m, s₀._stack, s₀.level⟩
      huB hgB hkB havq
    refine ⟨new, ?_, hmq⟩
    rw [hrunL, hrunR]
    show (run q (run (Prog.updMetaP m)
        (run p₀ { clone w i with ctx := some w.loggers.length }))).calls
      = (run (Prog.updMetaP m)
          (run p₀ { clone w i with ctx := some w.loggers.length })).calls ++ new
    rw [hB]
    exact hcq
  · intro m lvl d
    have hcl : clone w i
        = { w with loggers := w.loggers ++ [⟨s.meta, s._stack, s.level⟩] } := by
      simp [clone, hs]
    have hgj : getLogger { clone w i with ctx := some w.loggers.length }
        w.loggers.length = some ⟨s.meta, s._stack, s.level⟩ :=
      clone_loggers_new w i s hs
    have hrun : run (Prog.castP (Prog.seq (Prog.updMetaP m) (Prog.logP lvl d))) w
        = { run (Prog.seq (Prog.updMetaP m) (Prog.logP lvl d))
              { clone w i with ctx := some w.loggers.length }
            with ctx := w.ctx } := by
      simp only [run, hu]
    rw [hrun]
    rw [show run (Prog.seq (Prog.updMetaP m) (Prog.logP lvl d))
          { clone w i with ctx := some w.loggers.length }
        = run (Prog.logP lvl d) (run (Prog.updMetaP m)
            { clone w i with ctx := some w.loggers.length }) from rfl]
    have h2 : run (Prog.updMetaP m)
          { clone w i with ctx := some w.loggers.length }
        = setLogger { clone w i with ctx := some w.loggers.length }
            w.loggers.length ⟨assignObj s.meta m, s._stack, s.level⟩ := by
      show upd_meta { clone w i with ctx := some w.loggers.length }
          w.loggers.length m = _
      simp [upd_meta, hgj, setLogger]
    rw [h2]
    have hsj : getLogger
        (setLogger { clone w i with ctx := some w.loggers.length }
          w.loggers.length ⟨assignObj s.meta m, s._stack, s.level⟩)
        w.loggers.length
        = some ⟨assignObj s.meta m, s._stack, s.level⟩ := by
      show ((clone w i).loggers.set w.loggers.length
          ⟨assignObj s.meta m, s._stack, s.level⟩)[w.loggers.length]? = _
      rw [hcl]
      rw [List.getElem?_set_eq_of_lt]
      simp
    rw [show run (Prog.logP lvl d)
          (setLogger { clone w i with ctx := some w.loggers.length }
            w.loggers.length ⟨assignObj s.meta m, s._stack, s.level⟩)
        = log (setLogger { clone w i with ctx := some w.loggers.length }
            w.loggers.length ⟨assignObj s.meta m, s._stack, s.level⟩)
            w.loggers.length lvl d from rfl]
    show (log (setLogger { clone w i with ctx := some w.loggers.length }
        w.loggers.length ⟨assignObj s.meta m, s._stack, s.level⟩)
        w.loggers.length lvl d).calls = _
    rw [log_calls _ _ lvl d _ hsj]
    rw [show (setLogger { clone w i with ctx := some w.loggers.length }
        w.loggers.length ⟨assignObj s.meta m, s._stack, s.level⟩).calls
        = (clone w i).calls from rfl]
    rw [clone_calls]

/-- C1 witness: the cast-scope guarantees at the concrete one-logger world
with a `nop` body. -/
theorem cast_scope_isolation_witness :
    ((run (.castP .nop) w0).ctx = w0.ctx
      ∧ (run (.castP .nop) w0).global = w0.global
      ∧ use_logger (run (.castP .nop) w0) = use_logger w0)
    ∧ (∀ k, k < w0.loggers.length →
        (run (.castP .nop) w0).loggers[k]? = w0.loggers[k]?)
    ∧ (∀ p₀ m q k v, (m.map Prod.fst).Nodup → getKey m k = some v →
        avoids k q →
        ∃ new,
          (run (.castP (.seq p₀ (.seq (.updMetaP m) q))) w0).calls
            = (run (.castP (.seq p₀ (.updMetaP m))) w0).calls ++ new
          ∧ ∀ c ∈ new, getKey c.2.2 k = some v)
    ∧ (∀ m lvl d,
        (run (.castP (.seq (.updMetaP m) (.logP lvl d))) w0).calls
          = w0.calls ++ [(lvl, composeData none d, assignObj [] m)]) :=
  cast_scope_isolation w0 0 .nop ⟨[], none, LogLevel.info⟩ rfl rfl

/-- C10: `clone()` — and the entity `cast` installs — copies metadata only
one level deep: the copy is a fresh top-level mapping holding the very same
values, references included, so mutating a referenced heap object through one
entity's metadata is observed through the other entity, and the other
entity's subsequent log calls pass a metadata mapping whose entry still
references the mutated object. -/
theorem clone_shallow_aliasing (w : World) (i : Nat) (s : LoggerState)
    (k k2 : String) (a : Nat) (v : JVal) (o : Obj)
    (hs : getLogger w i = some s) (hu : use_logger w = some i)
    (hk : getKey s.meta k = some (.ref a)) (ha : w.heap[a]? = some o) :
    getLogger (clone w i) w.loggers.length = some ⟨s.meta, s._stack, s.level⟩
    ∧ (run (.castP .nop) w).loggers[w.loggers.length]?
        = some ⟨s.meta, s._stack, s.level⟩
    ∧ (setHeapKey (clone w i) a k2 v).heap[a]? = some (setKey o k2 v)
    ∧ observe (setHeapKey (clone w i) a k2 v) i k k2 = some v
    ∧ observe (setHeapKey (clone w i) a k2 v) w.loggers.length k k2 = some v
    ∧ ∀ lvl d, (log (setHeapKey (clone w i) a k2 v) i lvl d).calls
        = (setHeapKey (clone w i) a k2 v).calls
          ++ [(lvl, composeData s._stack d, s.meta)] := by
  have hi : i < w.loggers.length := getLogger_lt hs
  have hha : (clone w i).heap[a]? = some o := by
    rw [clone_heap]; exact ha
  have halt : a < (clone w i).heap.length := list_getElem?_lt hha
  have hmut : (setHeapKey (clone w i) a k2 v).heap[a]? = some (setKey o k2 v) := by
    simp only [setHeapKey, hha]
    rw [List.getElem?_set_eq_of_lt]
    exact halt
  have hgi : getLogger (setHeapKey (clone w i) a k2 v) i = some s := by
    unfold getLogger
    rw [setHeapKey_loggers]
    rw [show (clone w i).loggers[i]? = getLogger (clone w i) i from rfl]
    unfold getLogger
    rw [clone_loggers_lt w i i hi]
    exact hs
  have hgj : getLogger (setHeapKey (clone w i) a k2 v) w.loggers.length
      = some ⟨s.meta, s._stack, s.level⟩ := by
    unfold getLogger
    rw [setHeapKey_loggers]
    exact clone_loggers_new w i s hs
  refine ⟨clone_loggers_new w i s hs, ?_, hmut, ?_, ?_, ?_⟩
  · have hrun : run (Prog.castP Prog.nop) w
        = { run Prog.nop { clone w i with ctx := some w.loggers.length }
            with ctx := w.ctx } := by
      simp only [run, hu]
    rw [hrun]
    exact clone_loggers_new w i s hs
  · simp only [observe, hgi, hk, hmut, Option.bind]
    exact getKey_setKey_self o k2 v
  · simp only [observe, hgj, hk, hmut, Option.bind]
    exact getKey_setKey_self o k2 v
  · intro lvl d
    exact log_calls _ i lvl d s hgi

/-- C10 witness: one-level-deep copying observed on the concrete world whose
logger metadata references a heap object. -/
theorem clone_shallow_aliasing_witness :
    getLogger (clone wRef 0) wRef.loggers.length
        = some ⟨[("ctx", JVal.ref 0)], none, LogLevel.info⟩
    ∧ (run (.castP .nop) wRef).loggers[wRef.loggers.length]?
        = some ⟨[("ctx", JVal.ref 0)], none, LogLevel.info⟩
    ∧ (setHeapKey (clone wRef 0) 0 "user" (JVal.prim "bob")).heap[0]?
        = some (setKey [("user", JVal.prim "alice")] "user" (JVal.prim "bob"))
    ∧ observe (setHeapKey (clone wRef 0) 0 "user" (JVal.prim "bob")) 0 "ctx" "user"
        = some (JVal.prim "bob")
    ∧ observe (setHeapKey (clone wRef 0) 0 "user" (JVal.prim "bob"))
        wRef.loggers.length "ctx" "user" = some (JVal.prim "bob")
    ∧ ∀ lvl d,
        (log (setHeapKey (clone wRef 0) 0 "user" (JVal.prim "bob")) 0 lvl d).calls
          = (setHeapKey (clone wRef 0) 0 "user" (JVal.prim "bob")).calls
            ++ [(lvl, composeData none d, [("ctx", JVal.ref 0)])] :=
  clone_shallow_aliasing wRef 0 ⟨[("ctx", JVal.ref 0)], none, LogLevel.info⟩
    "ctx" "user" 0 (JVal.prim "bob") [("user", JVal.prim "alice")]
    rfl rfl rfl rfl

end Wire
